import Mathlib

/-!
Verification of the replot plot-data preparation engine: the ASCII grid
parser (replot/grid/parser.py), the custom keyword-argument normalizer
(replot/helpers/custom_kwargs.py) and the adaptive interval sampler
(modelled from the specification, since the adaptive_sampling module is
only imported by replot/helpers/plot.py and its source is not part of the
inspected tree).

Python conventions are embedded as follows: a Python function that can
raise is modelled with Except, where GridErr.indexError stands for an
IndexError escaping the function and GridErr.invalidGrid stands for the
explicit failure value None returned by parse_ascii.  Strings are lists of
characters, dictionaries are insertion-ordered association lists with
Python dict update/delete semantics, and real arithmetic replaces
floating-point arithmetic.
-/

namespace Replot

/-! ### ASCII grid parser, from replot/grid/parser.py -/

/-- A subplot region, mirroring the Python tuple
`((y_position, x_position), symbol, (rowspan, colspan))`. -/
abbrev Region := (Nat × Nat) × Char × (Nat × Nat)

/-- Symbol of a region. -/
def sym (r : Region) : Char := r.2.1

/-- Outcomes of `parse_ascii` other than a parsed grid: `indexError` models a
Python `IndexError` escaping the function, `invalidGrid` models the explicit
`return None`. -/
inductive GridErr
  | indexError
  | invalidGrid
deriving DecidableEq, Repr

/-- The dictionary returned by `parse_ascii` on success. -/
structure ParsedGrid where
  width : Nat
  height : Nat
  grid : List Region
deriving DecidableEq, Repr

/-- The mutable state of the scan loop in `parse_ascii`: the `symbols_found`
list, the `elements_done` matrix (as the list of `(y, x)` coordinates marked
`1`) and the accumulated `subplot_list`. -/
structure PState where
  symbolsFound : List Char
  done : List (Nat × Nat)
  subplots : List Region
deriving DecidableEq, Repr

/-- Cell access `M[ny][nx]` with Python semantics: an out-of-range index raises. -/
def getCell (M : List (List Char)) (ny nx : Nat) : Except GridErr Char :=
  match (M.get? ny).bind (fun row => row.get? nx) with
  | none => .error .indexError
  | some c => .ok c

/-- Count how many of the given cells hold `s`, reading each cell (a Python
loop such as `for n_x_tmp in range(n_x + 1, width)` reads every cell in the
range and can raise on a ragged matrix). -/
def countMatches (M : List (List Char)) (s : Char) :
    List (Nat × Nat) → Except GridErr Nat
  | [] => .ok 0
  | (y, x) :: rest =>
    match getCell M y x with
    | .error e => .error e
    | .ok c =>
      match countMatches M s rest with
      | .error e => .error e
      | .ok n => .ok (if c = s then n + 1 else n)

/-- The cells of the rectangle with top-left corner `(ny, nx)`, width `dx`
and height `dy`, in the iteration order of `_check_rect` / `_set_as_done`
(`x` outer, `y` inner). -/
def rectCells (nx ny dx dy : Nat) : List (Nat × Nat) :=
  (List.range dx).flatMap (fun x => (List.range dy).map (fun y => (ny + y, nx + x)))

/-- Body of `_check_rect`: scan the cells, return `False` on the first
mismatch. -/
def checkRectCells (M : List (List Char)) (s : Char) :
    List (Nat × Nat) → Except GridErr Bool
  | [] => .ok true
  | (y, x) :: rest =>
    match getCell M y x with
    | .error e => .error e
    | .ok c => if c = s then checkRectCells M s rest else .ok false

/-- Model of `_check_rect(n_x, n_y, dx, dy, symbol, M)` from parser.py. -/
def check_rect (M : List (List Char)) (nx ny dx dy : Nat) (s : Char) :
    Except GridErr Bool :=
  checkRectCells M s (rectCells nx ny dx dy)

/-- Model of `_set_as_done(n_x, n_y, dx, dy, elements_done)` from parser.py: the
coordinates newly marked as done. -/
def set_as_done (nx ny dx dy : Nat) : List (Nat × Nat) :=
  rectCells nx ny dx dy

/-- The body of the double scan loop of `parse_ascii` for one position
`(n_x, n_y)`: skip a done cell, fail on a symbol seen before, measure
`colspan` along the row and `rowspan` along the column, validate the
rectangle with `_check_rect`, then record the subplot and mark its cells. -/
def processCell (M : List (List Char)) (width height nx ny : Nat)
    (st : PState) : Except GridErr PState :=
  if (ny, nx) ∈ st.done then .ok st
  else
    match getCell M ny nx with
    | .error e => .error e
    | .ok cur =>
      if cur ∈ st.symbolsFound then .error .invalidGrid
      else
        -- `symbols_found.append(current_symbol)`; `colspan` is one more than
        -- the matches found to the right, `rowspan` one more than the
        -- matches found below
        match countMatches M cur
            ((List.range' (nx + 1) (width - (nx + 1))).map (fun x => (ny, x))) with
        | .error e => .error e
        | .ok extraCols =>
          match countMatches M cur
              ((List.range' (ny + 1) (height - (ny + 1))).map (fun y => (y, nx))) with
          | .error e => .error e
          | .ok extraRows =>
            match check_rect M nx ny (1 + extraCols) (1 + extraRows) cur with
            | .error e => .error e
            | .ok true =>
              .ok { symbolsFound := st.symbolsFound ++ [cur],
                    done := st.done ++ set_as_done nx ny (1 + extraCols) (1 + extraRows),
                    subplots :=
                      st.subplots ++ [((ny, nx), cur, (1 + extraRows, 1 + extraCols))] }
            | .ok false => .error .invalidGrid

/-- The scan order of `parse_ascii`: `for n_x in range(width)` outer,
`for n_y in range(height)` inner, so the grid is traversed column by
column. -/
def scanCoords (width height : Nat) : List (Nat × Nat) :=
  (List.range width).flatMap (fun nx => (List.range height).map (fun ny => (nx, ny)))

/-- Run the scan loop over the given `(n_x, n_y)` positions. -/
def runCells (M : List (List Char)) (width height : Nat) :
    List (Nat × Nat) → PState → Except GridErr PState
  | [], st => .ok st
  | (nx, ny) :: rest, st =>
    match processCell M width height nx ny st with
    | .error e => .error e
    | .ok st' => runCells M width height rest st'

/-- Model of `parse_ascii(M)` from replot/grid/parser.py.  `height, width = len(M),
len(M[0])` raises `IndexError` on the empty list; a `return None` is
modelled by `.error .invalidGrid`. -/
def parse_ascii (M : List (List Char)) : Except GridErr ParsedGrid :=
  match M.head? with
  | none => .error .indexError
  | some row0 =>
    -- `height, width = len(M), len(M[0])`
    match runCells M row0.length M.length
        (scanCoords row0.length M.length) ⟨[], [], []⟩ with
    | .error e => .error e
    | .ok st => .ok ⟨row0.length, M.length, st.subplots⟩

/-- Convert a list of Python strings (the grid description) to the character
matrix the model works on. -/
def gridOfStrings (rows : List String) : List (List Char) :=
  rows.map String.toList

/-- The input matrix is rectangular with the given width. -/
def Rectangular (M : List (List Char)) (width : Nat) : Prop :=
  ∀ row ∈ M, row.length = width

/-- Membership of a cell `(y, x)` in a region's rectangle. -/
def inRect (r : Region) (c : Nat × Nat) : Prop :=
  r.1.1 ≤ c.1 ∧ c.1 < r.1.1 + r.2.2.1 ∧ r.1.2 ≤ c.2 ∧ c.2 < r.1.2 + r.2.2.2

/-- The occupied cells of symbol `s` in `M` form exactly one axis-aligned
(nonempty) rectangle. -/
def OneRect (M : List (List Char)) (s : Char) : Prop :=
  ∃ y0 x0 h w, 1 ≤ h ∧ 1 ≤ w ∧
    ∀ y x, (getCell M y x = Except.ok s ↔
      (y0 ≤ y ∧ y < y0 + h ∧ x0 ≤ x ∧ x < x0 + w))

/-- Loop invariant of the scan: the done set is exactly the union of the
recorded rectangles, the seen symbols are exactly the recorded symbols, all
recorded rectangles are nonempty, in bounds and filled with their symbol,
and no symbol is recorded twice. -/
structure Inv (M : List (List Char)) (width : Nat) (st : PState) : Prop where
  done_iff : ∀ c, c ∈ st.done ↔ ∃ r ∈ st.subplots, inRect r c
  symbols_eq : st.symbolsFound = st.subplots.map sym
  bounds : ∀ r ∈ st.subplots,
    r.1.1 + r.2.2.1 ≤ M.length ∧ r.1.2 + r.2.2.2 ≤ width ∧
      1 ≤ r.2.2.1 ∧ 1 ≤ r.2.2.2
  filled : ∀ r ∈ st.subplots, ∀ c, inRect r c →
    getCell M c.1 c.2 = Except.ok (sym r)
  nodup : (st.subplots.map sym).Nodup

/-! ### Custom keyword-argument parsing, from replot/helpers/custom_kwargs.py -/

/-- A Python value as it appears among the plot keyword arguments. -/
inductive PyVal
  | str (s : String)
  | bool (b : Bool)
  | int (n : Int)
  | pair (a b : PyVal)
deriving DecidableEq, Repr

/-- Python `len(v)`: defined for strings (number of unicode characters)
and for the 2-tuples we model; `none` models a `TypeError`. -/
def pyLen : PyVal → Option Nat
  | .str s => some s.length
  | .pair _ _ => some 2
  | .bool _ => none
  | .int _ => none

/-- Python truthiness of a value. -/
def pyTruthy : PyVal → Bool
  | .str s => s ≠ ""
  | .bool b => b
  | .int n => n ≠ 0
  | .pair _ _ => true

/-- An insertion-ordered Python dictionary with string keys. -/
abbrev Dict := List (String × PyVal)

/-- Dictionary lookup `d[k]` (`some` iff the key is present). -/
def dget : Dict → String → Option PyVal
  | [], _ => none
  | (k0, v0) :: rest, k => if k0 = k then some v0 else dget rest k

/-- Dictionary update `d[k] = v`: update in place if the key is present (keeping its
position, as Python dictionaries do), else append. -/
def dset : Dict → String → PyVal → Dict
  | [], k, v => [(k, v)]
  | (k0, v0) :: rest, k, v =>
    if k0 = k then (k, v) :: rest else (k0, v0) :: dset rest k v

/-- Dictionary deletion `del d[k]`. -/
def ddel : Dict → String → Dict
  | [], _ => []
  | (k0, v0) :: rest, k =>
    if k0 = k then ddel rest k else (k0, v0) :: ddel rest k

/-- Constant `DEFAULT_GROUP` from replot/constants.py. -/
def DEFAULT_GROUP : String := "_"

/-- Errors raised by `parse`: a structured `InvalidParameterError` with its
message, or a `TypeError` (calling `len` on a value without a length). -/
inductive KwErr
  | invalidParameterError (msg : String)
  | typeError
deriving DecidableEq, Repr

/-- The `line` handling of `parse`: when the value is falsy, set
`linestyle = "None"` and `marker = "x"`; in either case delete `line`. -/
def handleLine (kw : Dict) : Dict :=
  match dget kw "line" with
  | none => kw
  | some v =>
    ddel (if pyTruthy v then kw
          else dset (dset kw "linestyle" (.str "None")) "marker" (.str "x")) "line"

/-- The alias handling of `parse`: `kwargs[dst] = kwargs[src]` when `src` is
present.  Note that the source key is not deleted. -/
def handleAlias (src dst : String) (kw : Dict) : Dict :=
  match dget kw src with
  | none => kw
  | some v => dset kw dst v

/-- One iteration of the custom-argument loop of `parse`: move `key` from
the matplotlib kwargs to the custom kwargs when present. -/
def moveCustom (acc : Dict × Dict) (key : String) : Dict × Dict :=
  match dget acc.1 key with
  | none => acc
  | some v => (ddel acc.1 key, dset acc.2 key v)

/-- The `custom_args` list of `parse`, in source order. -/
def custom_args : List String :=
  ["frame", "invert", "logscale", "orthonormal", "rotate", "xlim", "ylim"]

/-- The stages of `parse` after the `group` handling (none of them can
raise). -/
def parseRest (kw custom : Dict) : Dict × Dict :=
  custom_args.foldl moveCustom
    (handleAlias "yrange" "ylim" (handleAlias "xrange" "xlim" (handleLine kw)), custom)

/-- Model of `parse(kwargs)` from replot/helpers/custom_kwargs.py: validate and
extract `group`, rewrite `line`, copy the `xrange`/`yrange` aliases, then
move the recognized custom arguments out of the matplotlib kwargs. -/
def parse (kwargs : Dict) : Except KwErr (Dict × Dict) :=
  let custom0 : Dict := [("frame", PyVal.int 0)]
  match dget kwargs "group" with
  | none => .ok (parseRest kwargs custom0)
  | some v =>
    match pyLen v with
    | none => .error .typeError
    | some n =>
      if 1 < n then
        .error (.invalidParameterError
          "Group name cannot be longer than one unicode character.")
      else if v = .str DEFAULT_GROUP then
        .error (.invalidParameterError "reserved group name")
      else
        .ok (parseRest (ddel kwargs "group") (dset custom0 "group" v))

/-! ### Geometric command normalizer, from replot/helpers/custom_kwargs.py -/

/-- The positional arguments of a plot command: the x sequence, the y
sequence, and the remaining positional arguments `args[2:]` which the
normalizer carries through untouched. -/
structure PlotArgs (ρ : Type) where
  X : List ℝ
  Y : List ℝ
  rest : ρ

/-- The custom kwargs fields inspected by `edit_plot_command`; a missing
key is `none`. -/
structure CustomKwargs where
  invert : Option Bool := none
  rotate : Option ℝ := none

/-- Model of `np.deg2rad`. -/
noncomputable def deg2rad (d : ℝ) : ℝ := d * (Real.pi / 180)

/-- The inversion stage of `edit_plot_command` in isolation: swap the x and
y sequences when `invert` is truthy. -/
def applyInvert {ρ κ : Type} (q : PlotArgs ρ × κ × CustomKwargs) :
    PlotArgs ρ × κ × CustomKwargs :=
  if q.2.2.invert.getD false then (⟨q.1.Y, q.1.X, q.1.rest⟩, q.2) else q

/-- The rotation stage of `edit_plot_command` in isolation: rotate every
`zip`ped point by the `rotate` angle when present. -/
noncomputable def applyRotate {ρ κ : Type} (q : PlotArgs ρ × κ × CustomKwargs) :
    PlotArgs ρ × κ × CustomKwargs :=
  match q.2.2.rotate with
  | none => q
  | some d =>
    (⟨(q.1.X.zip q.1.Y).map
        (fun p => Real.cos (deg2rad d) * p.1 + Real.sin (deg2rad d) * p.2),
      (q.1.X.zip q.1.Y).map
        (fun p => -Real.sin (deg2rad d) * p.1 + Real.cos (deg2rad d) * p.2),
      q.1.rest⟩, q.2)

/-- Model of `edit_plot_command(plot_, custom_kwargs)` from
replot/helpers/custom_kwargs.py: append the custom kwargs to the command,
then swap the x and y sequences when `invert` is truthy, then rotate every
`zip`ped point by the `rotate` angle (degrees, converted to radians). -/
noncomputable def edit_plot_command {ρ κ : Type} (plot_ : PlotArgs ρ × κ)
    (ck : CustomKwargs) : PlotArgs ρ × κ × CustomKwargs :=
  let p1 : PlotArgs ρ × κ × CustomKwargs := (plot_.1, plot_.2, ck)
  let p2 : PlotArgs ρ × κ × CustomKwargs :=
    if ck.invert.getD false then (⟨p1.1.Y, p1.1.X, p1.1.rest⟩, p1.2) else p1
  match ck.rotate with
  | none => p2
  | some d =>
    let a := deg2rad d
    let pts := p2.1.X.zip p2.1.Y
    (⟨pts.map (fun p => Real.cos a * p.1 + Real.sin a * p.2),
      pts.map (fun p => -Real.sin a * p.1 + Real.cos a * p.2),
      p2.1.rest⟩, p2.2)

/-! ### Adaptive interval sampler -/

/-- Modelled from the spec: the recursion-depth bound of the adaptive
sampler.  The adaptive_sampling module itself is not part of the inspected
sources (replot/helpers/plot.py only calls
`adaptive_sampling.sample_function`); the spec mandates a fixed recursion
ceiling without fixing its value. -/
def MAX_DEPTH : Nat := 12

/-- Modelled from the spec: recursive subdivision of `[lo, hi]`.  Evaluate
`f` at `lo`, `mid = (lo + hi) / 2` and `hi`; estimate the linear
interpolation error at `mid`; if it exceeds `tol` and depth remains,
recurse on the two halves and concatenate, sharing the midpoint once;
otherwise accept the three evaluated points.  Real arithmetic stands in for
floating point, so the non-finite edge cases do not arise. -/
def sampleAux (f : ℚ → ℚ) (tol : ℚ) : Nat → ℚ → ℚ → List (ℚ × ℚ)
  | 0, lo, hi =>
    [(lo, f lo), ((lo + hi) / 2, f ((lo + hi) / 2)), (hi, f hi)]
  | depth + 1, lo, hi =>
    -- `mid = (lo + hi) / 2`; the interpolation error estimate at `mid` is
    -- `|f mid - (f lo + f hi) / 2|`
    if tol < |f ((lo + hi) / 2) - (f lo + f hi) / 2| then
      sampleAux f tol depth lo ((lo + hi) / 2) ++
        (sampleAux f tol depth ((lo + hi) / 2) hi).drop 1
    else
      [(lo, f lo), ((lo + hi) / 2, f ((lo + hi) / 2)), (hi, f hi)]

/-- Modelled from the spec: the sampler error for a degenerate interval
(`lo == hi` is rejected as an invalid interval; the spec also lists
`InvalidInterval` for `lo ≥ hi`). -/
inductive SampleErr
  | invalidInterval
deriving DecidableEq, Repr

/-- Modelled from the spec:
`sample(function, interval, tolerance) -> Polyline`. -/
def sample_function (f : ℚ → ℚ) (interval : ℚ × ℚ) (tol : ℚ) :
    Except SampleErr (List (ℚ × ℚ)) :=
  if interval.2 ≤ interval.1 then .error .invalidInterval
  else .ok (sampleAux f tol MAX_DEPTH interval.1 interval.2)

/-! ### Lemmas about the grid parser -/

theorem getCell_ok_of_lt {M : List (List Char)} {width : Nat}
    (hM : Rectangular M width) {ny nx : Nat}
    (hy : ny < M.length) (hx : nx < width) :
    ∃ c, getCell M ny nx = Except.ok c := by
  obtain ⟨row, hrow⟩ : ∃ row, M.get? ny = some row :=
    ⟨M.get ⟨ny, hy⟩, List.get?_eq_get hy⟩
  have hmem : row ∈ M := List.get?_mem hrow
  have hlen : row.length = width := hM row hmem
  obtain ⟨c, hc⟩ : ∃ c, row.get? nx = some c :=
    ⟨row.get ⟨nx, by omega⟩, List.get?_eq_get (by omega)⟩
  refine ⟨c, ?_⟩
  unfold getCell
  rw [hrow, Option.some_bind, hc]

theorem getCell_ok_lt {M : List (List Char)} {width : Nat}
    (hM : Rectangular M width) {ny nx : Nat} {c : Char}
    (h : getCell M ny nx = Except.ok c) : ny < M.length ∧ nx < width := by
  unfold getCell at h
  split at h
  · exact absurd h (by simp)
  · next c' heq =>
    obtain ⟨row, hrow, hcell⟩ := Option.bind_eq_some.mp heq
    have h1 : ny < M.length := (List.get?_eq_some.mp hrow).1
    have h2 : nx < row.length := (List.get?_eq_some.mp hcell).1
    have h3 : row.length = width := hM row (List.get?_mem hrow)
    omega

theorem countMatches_ok {M : List (List Char)} {width : Nat}
    (hM : Rectangular M width) (s : Char) :
    ∀ cells : List (Nat × Nat),
      (∀ c ∈ cells, c.1 < M.length ∧ c.2 < width) →
      ∃ n, countMatches M s cells = Except.ok n ∧ n ≤ cells.length := by
  intro cells
  induction cells with
  | nil => exact fun _ => ⟨0, rfl, Nat.le_refl 0⟩
  | cons hd tl ih =>
    intro hb
    obtain ⟨y, x⟩ := hd
    obtain ⟨hy, hx⟩ := hb (y, x) (List.mem_cons_self _ _)
    obtain ⟨c, hc⟩ := getCell_ok_of_lt hM hy hx
    obtain ⟨n, hn, hle⟩ := ih (fun c hc => hb c (List.mem_cons_of_mem _ hc))
    refine ⟨if c = s then n + 1 else n, ?_, ?_⟩
    · simp only [countMatches]
      rw [hc]
      simp only [hn]
    · simp only [List.length_cons]
      split <;> omega

theorem checkRectCells_ok {M : List (List Char)} {width : Nat}
    (hM : Rectangular M width) (s : Char) :
    ∀ cells : List (Nat × Nat),
      (∀ c ∈ cells, c.1 < M.length ∧ c.2 < width) →
      ∃ b, checkRectCells M s cells = Except.ok b := by
  intro cells
  induction cells with
  | nil => exact fun _ => ⟨true, rfl⟩
  | cons hd tl ih =>
    intro hb
    obtain ⟨y, x⟩ := hd
    obtain ⟨hy, hx⟩ := hb (y, x) (List.mem_cons_self _ _)
    obtain ⟨c, hc⟩ := getCell_ok_of_lt hM hy hx
    by_cases hcs : c = s
    · obtain ⟨b, hbeq⟩ := ih (fun c hc => hb c (List.mem_cons_of_mem _ hc))
      refine ⟨b, ?_⟩
      simp only [checkRectCells]
      rw [hc]
      simp only [if_pos hcs, hbeq]
    · refine ⟨false, ?_⟩
      simp only [checkRectCells]
      rw [hc]
      simp only [if_neg hcs]

theorem checkRectCells_true {M : List (List Char)} {s : Char} :
    ∀ cells : List (Nat × Nat), checkRectCells M s cells = Except.ok true →
      ∀ c ∈ cells, getCell M c.1 c.2 = Except.ok s := by
  intro cells
  induction cells with
  | nil => intro _ c hc; exact absurd hc (List.not_mem_nil c)
  | cons hd tl ih =>
    intro h c hc
    obtain ⟨y, x⟩ := hd
    simp only [checkRectCells] at h
    split at h
    · exact absurd h (by simp)
    · next c' heq =>
      split at h
      · next hcs =>
        rcases List.mem_cons.mp hc with rfl | hmem
        · rw [heq, hcs]
        · exact ih h c hmem
      · exact absurd h (by simp)

theorem mem_rectCells {nx ny dx dy : Nat} {c : Nat × Nat} :
    c ∈ rectCells nx ny dx dy ↔
      ny ≤ c.1 ∧ c.1 < ny + dy ∧ nx ≤ c.2 ∧ c.2 < nx + dx := by
  obtain ⟨y, x⟩ := c
  simp only [rectCells, List.mem_flatMap, List.mem_map, List.mem_range]
  constructor
  · rintro ⟨a, ha, b, hb, heq⟩
    obtain ⟨rfl, rfl⟩ : ny + b = y ∧ nx + a = x := by
      exact ⟨congrArg Prod.fst heq, congrArg Prod.snd heq⟩
    omega
  · rintro ⟨h1, h2, h3, h4⟩
    exact ⟨x - nx, by omega, y - ny, by omega, by simp; omega⟩

theorem mem_scanCoords {width height : Nat} {p : Nat × Nat} :
    p ∈ scanCoords width height ↔ p.1 < width ∧ p.2 < height := by
  obtain ⟨nx, ny⟩ := p
  simp only [scanCoords, List.mem_flatMap, List.mem_map, List.mem_range]
  constructor
  · rintro ⟨a, ha, b, hb, heq⟩
    obtain ⟨rfl, rfl⟩ : a = nx ∧ b = ny :=
      ⟨congrArg Prod.fst heq, congrArg Prod.snd heq⟩
    exact ⟨ha, hb⟩
  · rintro ⟨h1, h2⟩
    exact ⟨nx, h1, ny, h2, rfl⟩

theorem rowCells_bounds {M : List (List Char)} (width nx : Nat) {ny : Nat}
    (hy : ny < M.length) :
    ∀ c ∈ (List.range' (nx + 1) (width - (nx + 1))).map (fun x => (ny, x)),
      c.1 < M.length ∧ c.2 < width := by
  intro c hc
  simp only [List.mem_map, List.mem_range'_1] at hc
  obtain ⟨x, ⟨hx1, hx2⟩, rfl⟩ := hc
  exact ⟨hy, by omega⟩

theorem colCells_bounds {M : List (List Char)} {width : Nat} (nx ny : Nat)
    (hx : nx < width) :
    ∀ c ∈ (List.range' (ny + 1) (M.length - (ny + 1))).map (fun y => (y, nx)),
      c.1 < M.length ∧ c.2 < width := by
  intro c hc
  simp only [List.mem_map, List.mem_range'_1] at hc
  obtain ⟨y, ⟨hy1, hy2⟩, rfl⟩ := hc
  exact ⟨by omega, hx⟩

theorem processCell_cases {M : List (List Char)} {width : Nat}
    (hM : Rectangular M width) {nx ny : Nat}
    (hx : nx < width) (hy : ny < M.length) (st : PState) :
    (∃ st', processCell M width M.length nx ny st = Except.ok st') ∨
      processCell M width M.length nx ny st = Except.error GridErr.invalidGrid := by
  unfold processCell
  split
  · exact Or.inl ⟨st, rfl⟩
  split
  · next e heq =>
    obtain ⟨c, hc⟩ := getCell_ok_of_lt hM hy hx
    rw [hc] at heq
    cases heq
  next cur heq =>
  split
  · exact Or.inr rfl
  next hseen =>
  split
  · next e heq2 =>
    obtain ⟨n, hn, _⟩ := countMatches_ok hM cur _ (rowCells_bounds width nx hy)
    rw [hn] at heq2
    cases heq2
  next extraCols hcols =>
  split
  · next e heq3 =>
    obtain ⟨n, hn, _⟩ := countMatches_ok hM cur _ (colCells_bounds nx ny hx)
    rw [hn] at heq3
    cases heq3
  next extraRows hrows =>
  have hcolsLe : extraCols ≤ width - (nx + 1) := by
    obtain ⟨n, hn, hle⟩ := countMatches_ok hM cur _ (rowCells_bounds width nx hy)
    rw [hn] at hcols
    cases hcols
    simpa using hle
  have hrowsLe : extraRows ≤ M.length - (ny + 1) := by
    obtain ⟨n, hn, hle⟩ := countMatches_ok hM cur _ (colCells_bounds nx ny hx)
    rw [hn] at hrows
    cases hrows
    simpa using hle
  have hrectB : ∀ c ∈ rectCells nx ny (1 + extraCols) (1 + extraRows),
      c.1 < M.length ∧ c.2 < width := by
    intro c hc
    have := mem_rectCells.mp hc
    exact ⟨by omega, by omega⟩
  split
  · next e heq4 =>
    obtain ⟨b, hb⟩ := checkRectCells_ok hM cur _ hrectB
    rw [show check_rect M nx ny (1 + extraCols) (1 + extraRows) cur =
      checkRectCells M cur (rectCells nx ny (1 + extraCols) (1 + extraRows)) from rfl,
      hb] at heq4
    cases heq4
  · exact Or.inl ⟨_, rfl⟩
  · exact Or.inr rfl

theorem processCell_preserves {M : List (List Char)} {width : Nat}
    (hM : Rectangular M width) {nx ny : Nat} {st st' : PState}
    (hx : nx < width) (hy : ny < M.length)
    (hinv : Inv M width st)
    (h : processCell M width M.length nx ny st = Except.ok st') :
    Inv M width st' ∧ st.done ⊆ st'.done ∧ (ny, nx) ∈ st'.done := by
  unfold processCell at h
  split at h
  · next hdone =>
    cases h
    exact ⟨hinv, fun _ hc => hc, hdone⟩
  next hdone =>
  split at h
  · cases h
  next cur hcur =>
  split at h
  · cases h
  next hseen =>
  split at h
  · cases h
  next extraCols hcols =>
  split at h
  · cases h
  next extraRows hrows =>
  split at h
  · cases h
  case h_3 => cases h
  next hrect =>
    -- the rectangle was validated by `_check_rect`
    have hcolsLe : extraCols ≤ width - (nx + 1) := by
      obtain ⟨n, hn, hle⟩ := countMatches_ok hM cur _ (rowCells_bounds width nx hy)
      rw [hn] at hcols
      cases hcols
      simpa using hle
    have hrowsLe : extraRows ≤ M.length - (ny + 1) := by
      obtain ⟨n, hn, hle⟩ := countMatches_ok hM cur _ (colCells_bounds nx ny hx)
      rw [hn] at hrows
      cases hrows
      simpa using hle
    have hfill : ∀ c ∈ rectCells nx ny (1 + extraCols) (1 + extraRows),
        getCell M c.1 c.2 = Except.ok cur :=
      checkRectCells_true _ hrect
    cases h
    have hinRect : ∀ c : Nat × Nat,
        inRect ((ny, nx), cur, (1 + extraRows, 1 + extraCols)) c ↔
        c ∈ rectCells nx ny (1 + extraCols) (1 + extraRows) := by
      intro c
      exact (@mem_rectCells nx ny (1 + extraCols) (1 + extraRows) c).symm
    have hseen' : cur ∉ st.subplots.map sym := by
      rw [← hinv.symbols_eq]
      exact hseen
    refine ⟨⟨?_, ?_, ?_, ?_, ?_⟩, ?_, ?_⟩
    · -- done_iff
      intro c
      simp only [List.mem_append, List.mem_singleton]
      rw [hinv.done_iff c]
      constructor
      · rintro (⟨r, hr, hir⟩ | hmem)
        · exact ⟨r, Or.inl hr, hir⟩
        · exact ⟨((ny, nx), cur, (1 + extraRows, 1 + extraCols)), Or.inr rfl,
            (hinRect c).mpr hmem⟩
      · rintro ⟨r, hr | rfl, hir⟩
        · exact Or.inl ⟨r, hr, hir⟩
        · exact Or.inr ((hinRect c).mp hir)
    · -- symbols_eq
      rw [List.map_append, ← hinv.symbols_eq]
      rfl
    · -- bounds
      intro r hr
      rcases List.mem_append.mp hr with hr | hr
      · exact hinv.bounds r hr
      · rw [List.mem_singleton] at hr
        subst hr
        show ny + (1 + extraRows) ≤ M.length ∧ nx + (1 + extraCols) ≤ width ∧
          1 ≤ 1 + extraRows ∧ 1 ≤ 1 + extraCols
        omega
    · -- filled
      intro r hr c hir
      rcases List.mem_append.mp hr with hr | hr
      · exact hinv.filled r hr c hir
      · rw [List.mem_singleton] at hr
        subst hr
        exact hfill c ((hinRect c).mp hir)
    · -- nodup
      rw [List.map_append]
      refine List.Nodup.append hinv.nodup (List.nodup_singleton _) ?_
      intro a ha hb
      rw [show List.map sym [((ny, nx), cur, (1 + extraRows, 1 + extraCols))] = [cur]
        from rfl, List.mem_singleton] at hb
      subst hb
      exact hseen' ha
    · intro c hc
      exact List.mem_append.mpr (Or.inl hc)
    · refine List.mem_append.mpr (Or.inr (mem_rectCells.mpr ?_))
      show ny ≤ ny ∧ ny < ny + (1 + extraRows) ∧ nx ≤ nx ∧ nx < nx + (1 + extraCols)
      omega

theorem runCells_cases {M : List (List Char)} {width : Nat}
    (hM : Rectangular M width) :
    ∀ (L : List (Nat × Nat)) (st : PState),
      (∀ p ∈ L, p.1 < width ∧ p.2 < M.length) →
      (∃ st', runCells M width M.length L st = Except.ok st') ∨
        runCells M width M.length L st = Except.error GridErr.invalidGrid := by
  intro L
  induction L with
  | nil => exact fun st _ => Or.inl ⟨st, rfl⟩
  | cons hd tl ih =>
    intro st hb
    obtain ⟨nx, ny⟩ := hd
    obtain ⟨hx, hy⟩ := hb (nx, ny) (List.mem_cons_self _ _)
    rcases processCell_cases hM hx hy st with ⟨st1, h1⟩ | h1
    · have : runCells M width M.length ((nx, ny) :: tl) st =
          runCells M width M.length tl st1 := by
        simp only [runCells]
        rw [h1]
      rw [this]
      exact ih st1 (fun p hp => hb p (List.mem_cons_of_mem _ hp))
    · refine Or.inr ?_
      simp only [runCells]
      rw [h1]

theorem runCells_preserves {M : List (List Char)} {width : Nat}
    (hM : Rectangular M width) :
    ∀ (L : List (Nat × Nat)) (st st' : PState),
      (∀ p ∈ L, p.1 < width ∧ p.2 < M.length) →
      Inv M width st →
      runCells M width M.length L st = Except.ok st' →
      Inv M width st' ∧ st.done ⊆ st'.done ∧
        ∀ p ∈ L, (p.2, p.1) ∈ st'.done := by
  intro L
  induction L with
  | nil =>
    intro st st' _ hinv h
    cases h
    exact ⟨hinv, fun _ hc => hc, by simp⟩
  | cons hd tl ih =>
    intro st st' hb hinv h
    obtain ⟨nx, ny⟩ := hd
    obtain ⟨hx, hy⟩ := hb (nx, ny) (List.mem_cons_self _ _)
    simp only [runCells] at h
    split at h
    · cases h
    · next st1 h1 =>
      obtain ⟨hinv1, hsub1, hmem1⟩ := processCell_preserves hM hx hy hinv h1
      obtain ⟨hinv', hsub', hcov'⟩ :=
        ih st1 st' (fun p hp => hb p (List.mem_cons_of_mem _ hp)) hinv1 h
      refine ⟨hinv', fun c hc => hsub' (hsub1 hc), ?_⟩
      intro p hp
      rcases List.mem_cons.mp hp with rfl | hp
      · exact hsub' hmem1
      · exact hcov' p hp

theorem Inv_init (M : List (List Char)) (width : Nat) :
    Inv M width ⟨[], [], []⟩ := by
  refine ⟨?_, rfl, ?_, ?_, ?_⟩ <;> simp

theorem parse_ascii_ok_inv {M : List (List Char)} {width : Nat} {g : ParsedGrid}
    (hM : Rectangular M width) (h : parse_ascii M = Except.ok g) :
    g.width = width ∧ g.height = M.length ∧
      ∃ st : PState, st.subplots = g.grid ∧ Inv M width st ∧
        ∀ y x, y < M.length → x < width → (y, x) ∈ st.done := by
  unfold parse_ascii at h
  split at h
  · cases h
  next row0 hrow0 =>
  have hrow0mem : row0 ∈ M := by
    cases M with
    | nil => cases hrow0
    | cons a as =>
      have : a = row0 := by simpa using hrow0
      rw [← this]
      exact List.mem_cons_self _ _
  have hw : row0.length = width := hM row0 hrow0mem
  subst hw
  split at h
  · cases h
  next st hrun =>
  cases h
  obtain ⟨hinv, _, hcov⟩ := runCells_preserves hM _ ⟨[], [], []⟩ st
    (fun p hp => mem_scanCoords.mp hp) (Inv_init M row0.length) hrun
  refine ⟨rfl, rfl, st, rfl, hinv, ?_⟩
  intro y x hy hx
  exact hcov (x, y) (mem_scanCoords.mpr ⟨hx, hy⟩)

theorem parse_ascii_total {M : List (List Char)} {width : Nat}
    (hM : Rectangular M width) (hne : M ≠ []) :
    (∃ g, parse_ascii M = Except.ok g) ∨
      parse_ascii M = Except.error GridErr.invalidGrid := by
  unfold parse_ascii
  split
  · next hnone =>
    cases M with
    | nil => exact absurd rfl hne
    | cons a as => cases hnone
  next row0 hrow0 =>
  have hrow0mem : row0 ∈ M := by
    cases M with
    | nil => cases hrow0
    | cons a as =>
      have : a = row0 := by simpa using hrow0
      rw [← this]
      exact List.mem_cons_self _ _
  have hw : row0.length = width := hM row0 hrow0mem
  subst hw
  rcases runCells_cases hM (scanCoords row0.length M.length) ⟨[], [], []⟩
      (fun p hp => mem_scanCoords.mp hp) with ⟨st, hst⟩ | hst
  · rw [hst]
    exact Or.inl ⟨_, rfl⟩
  · rw [hst]
    exact Or.inr rfl

theorem parse_ascii_partition {M : List (List Char)} {width : Nat}
    {g : ParsedGrid} (hM : Rectangular M width)
    (h : parse_ascii M = Except.ok g) :
    g.width = width ∧ g.height = M.length ∧
    (∀ y x, y < M.length → x < width → ∃ r ∈ g.grid, inRect r (y, x)) ∧
    (∀ r₁ ∈ g.grid, ∀ r₂ ∈ g.grid, ∀ c : Nat × Nat,
      inRect r₁ c → inRect r₂ c → r₁ = r₂) ∧
    (∀ r ∈ g.grid, ∀ c : Nat × Nat, inRect r c →
      getCell M c.1 c.2 = Except.ok (sym r)) ∧
    (g.grid.map sym).Nodup ∧
    (∀ r ∈ g.grid, r.1.1 + r.2.2.1 ≤ M.length ∧ r.1.2 + r.2.2.2 ≤ width ∧
      1 ≤ r.2.2.1 ∧ 1 ≤ r.2.2.2) := by
  obtain ⟨hwidth, hheight, st, hsubs, hinv, hcov⟩ := parse_ascii_ok_inv hM h
  rw [← hsubs]
  refine ⟨hwidth, hheight, ?_, ?_, hinv.filled, hinv.nodup, hinv.bounds⟩
  · intro y x hy hx
    exact (hinv.done_iff (y, x)).mp (hcov y x hy hx)
  · intro r₁ h1 r₂ h2 c hc1 hc2
    have e1 := hinv.filled r₁ h1 c hc1
    have e2 := hinv.filled r₂ h2 c hc2
    have hsym : sym r₁ = sym r₂ := (Except.ok.injEq _ _).mp (e1.symm.trans e2)
    exact List.inj_on_of_nodup_map hinv.nodup h1 h2 hsym

theorem parse_ascii_ok_oneRect {M : List (List Char)} {width : Nat}
    {g : ParsedGrid} {s : Char} {y x : Nat} (hM : Rectangular M width)
    (h : parse_ascii M = Except.ok g)
    (hocc : getCell M y x = Except.ok s) : OneRect M s := by
  obtain ⟨-, -, hcover, huniq, hfilled, hnodup, hbounds⟩ :=
    parse_ascii_partition hM h
  obtain ⟨hy, hx⟩ := getCell_ok_lt hM hocc
  obtain ⟨r, hr, hir⟩ := hcover y x hy hx
  have hsymr : sym r = s :=
    (Except.ok.injEq _ _).mp ((hfilled r hr (y, x) hir).symm.trans hocc)
  obtain ⟨-, -, h1, h2⟩ := hbounds r hr
  refine ⟨r.1.1, r.1.2, r.2.2.1, r.2.2.2, h1, h2, ?_⟩
  intro y' x'
  constructor
  · intro hocc'
    obtain ⟨hy', hx'⟩ := getCell_ok_lt hM hocc'
    obtain ⟨r', hr', hir'⟩ := hcover y' x' hy' hx'
    have hsymr' : sym r' = s :=
      (Except.ok.injEq _ _).mp ((hfilled r' hr' (y', x') hir').symm.trans hocc')
    have : r' = r :=
      List.inj_on_of_nodup_map hnodup hr' hr (hsymr'.trans hsymr.symm)
    subst this
    exact hir'
  · intro hin
    have := hfilled r hr (y', x') hin
    rw [hsymr] at this
    exact this

/-- Claim C10: whenever `parse_ascii` succeeds on a rectangular grid, the
returned regions exactly partition the grid — every cell of the
height-by-width grid lies inside exactly one region's rectangle, every cell
inside a region's rectangle holds that region's symbol, and no two returned
regions have the same symbol. -/
theorem claim_C10 {M : List (List Char)} {width : Nat} {g : ParsedGrid}
    (hM : Rectangular M width) (h : parse_ascii M = Except.ok g) :
    g.width = width ∧ g.height = M.length ∧
    (∀ y x, y < M.length → x < width → ∃ r ∈ g.grid, inRect r (y, x)) ∧
    (∀ r₁ ∈ g.grid, ∀ r₂ ∈ g.grid, ∀ c : Nat × Nat,
      inRect r₁ c → inRect r₂ c → r₁ = r₂) ∧
    (∀ r ∈ g.grid, ∀ c : Nat × Nat, inRect r c →
      getCell M c.1 c.2 = Except.ok (sym r)) ∧
    (g.grid.map sym).Nodup := by
  obtain ⟨h1, h2, h3, h4, h5, h6, -⟩ := parse_ascii_partition hM h
  exact ⟨h1, h2, h3, h4, h5, h6⟩

/-- Claim C10, witnessed at the one-cell grid `["A"]`. -/
theorem claim_C10_witness :
    (∀ y x, y < (gridOfStrings ["A"]).length → x < 1 →
      ∃ r ∈ (⟨1, 1, [((0, 0), 'A', (1, 1))]⟩ : ParsedGrid).grid, inRect r (y, x)) ∧
    ((⟨1, 1, [((0, 0), 'A', (1, 1))]⟩ : ParsedGrid).grid.map sym).Nodup := by
  have h := @claim_C10 (gridOfStrings ["A"]) 1 ⟨1, 1, [((0, 0), 'A', (1, 1))]⟩
    (by intro row hrow; simp [gridOfStrings] at hrow; subst hrow; rfl) rfl
  exact ⟨h.2.2.1, h.2.2.2.2.2⟩

/-- Claim C3: for every rectangular grid description in which some occupied
symbol's cells do not form exactly one axis-aligned rectangle, `parse_ascii`
returns the explicit failure result (`None`, modelled as
`GridErr.invalidGrid`); in particular it fails on `["AB", "BA"]`. -/
theorem claim_C3 :
    (∀ (M : List (List Char)) (width : Nat), Rectangular M width →
      (∃ s y x, getCell M y x = Except.ok s ∧ ¬ OneRect M s) →
      parse_ascii M = Except.error GridErr.invalidGrid) ∧
    parse_ascii (gridOfStrings ["AB", "BA"]) =
      Except.error GridErr.invalidGrid := by
  constructor
  · intro M width hM ⟨s, y, x, hocc, hnot⟩
    have hy := (getCell_ok_lt hM hocc).1
    have hne : M ≠ [] := by
      intro hMnil
      rw [hMnil] at hy
      simp at hy
    rcases parse_ascii_total hM hne with ⟨g, hg⟩ | hg
    · exact absurd (parse_ascii_ok_oneRect hM hg hocc) hnot
    · exact hg
  · rfl

/-- Claim C3, witnessed at the grid `["AB", "BA"]` with the disconnected
symbol `A`. -/
theorem claim_C3_witness :
    parse_ascii (gridOfStrings ["AB", "BA"]) =
      Except.error GridErr.invalidGrid := by
  refine claim_C3.1 (gridOfStrings ["AB", "BA"]) 2 ?_ ⟨'A', 0, 0, rfl, ?_⟩
  · intro row hrow
    simp only [gridOfStrings, List.mem_map, List.mem_cons] at hrow
    obtain ⟨a, ha, rfl⟩ := hrow
    rcases ha with rfl | rfl | h
    · rfl
    · rfl
    · simp at h
  · rintro ⟨y0, x0, hh, ww, h1, h2, hiff⟩
    have hA00 : getCell (gridOfStrings ["AB", "BA"]) 0 0 = Except.ok 'A' := rfl
    have hA11 : getCell (gridOfStrings ["AB", "BA"]) 1 1 = Except.ok 'A' := rfl
    have c00 := (hiff 0 0).mp hA00
    have c11 := (hiff 1 1).mp hA11
    have c01 : getCell (gridOfStrings ["AB", "BA"]) 0 1 = Except.ok 'A' :=
      (hiff 0 1).mpr ⟨c00.1, c00.2.1, c11.2.2.1, c11.2.2.2⟩
    cases c01

/-- Claim C2 counterexample: `parse_ascii` does not return the explicit
failure on the empty grid descriptions.  On `[]` the access `len(M[0])`
raises `IndexError`, and on `["", ""]` the parser succeeds with a width-0
grid instead of failing. -/
theorem claim_C2_counterexample :
    parse_ascii ([] : List (List Char)) = Except.error GridErr.indexError ∧
    parse_ascii ([] : List (List Char)) ≠ Except.error GridErr.invalidGrid ∧
    parse_ascii [([] : List Char), []] = Except.ok ⟨0, 2, []⟩ ∧
    parse_ascii [([] : List Char), []] ≠ Except.error GridErr.invalidGrid :=
  ⟨rfl,
   fun h => absurd ((Except.error.injEq _ _).mp h) (by decide),
   rfl,
   fun h => Except.noConfusion h⟩

/-- Claim C2 as amended: on a nonempty rectangular grid description
`parse_ascii` never raises (it returns a parsed grid or the explicit
failure); but `parse_ascii([])` raises `IndexError` and
`parse_ascii(["", ""])` returns a successful width-0 grid rather than a
failure. -/
theorem claim_C2_amended :
    (∀ (M : List (List Char)) (width : Nat), Rectangular M width → M ≠ [] →
      parse_ascii M ≠ Except.error GridErr.indexError) ∧
    parse_ascii ([] : List (List Char)) = Except.error GridErr.indexError ∧
    parse_ascii [([] : List Char), []] = Except.ok ⟨0, 2, []⟩ := by
  refine ⟨?_, rfl, rfl⟩
  intro M width hM hne h
  rcases parse_ascii_total hM hne with ⟨g, hg⟩ | hg <;> rw [hg] at h <;> cases h

/-- Claim C2 as amended, witnessed at the grid `["A"]`. -/
theorem claim_C2_witness :
    parse_ascii (gridOfStrings ["A"]) ≠ Except.error GridErr.indexError :=
  claim_C2_amended.1 (gridOfStrings ["A"]) 1
    (by
      intro row hrow
      simp only [gridOfStrings, List.mem_map, List.mem_cons] at hrow
      obtain ⟨a, ha, rfl⟩ := hrow
      rcases ha with rfl | h
      · rfl
      · simp at h)
    (by simp [gridOfStrings])

/-- Claim C1: evaluation of `parse_ascii` on `["AAA", "BBC", "DEC"]`.  The
width, height and the set of regions match the claim, but the scan loop of
parser.py iterates columns in the outer loop, so the regions are discovered
in column-major order `A, B, D, E, C` — not the row-major order
`A, B, C, D, E` stated by the claim and by the docstring of `parse_ascii`
itself. -/
theorem claim_C1_eval :
    parse_ascii (gridOfStrings ["AAA", "BBC", "DEC"]) = Except.ok
      ⟨3, 3, [((0, 0), 'A', (1, 3)), ((1, 0), 'B', (1, 2)),
              ((2, 0), 'D', (1, 1)), ((2, 1), 'E', (1, 1)),
              ((1, 2), 'C', (2, 1))]⟩ ∧
    ([((0, 0), 'A', (1, 3)), ((1, 0), 'B', (1, 2)), ((2, 0), 'D', (1, 1)),
      ((2, 1), 'E', (1, 1)), ((1, 2), 'C', (2, 1))] : List Region) ≠
    [((0, 0), 'A', (1, 3)), ((1, 0), 'B', (1, 2)), ((1, 2), 'C', (2, 1)),
     ((2, 0), 'D', (1, 1)), ((2, 1), 'E', (1, 1))] :=
  ⟨rfl, by decide⟩

/-! ### Lemmas about the custom keyword-argument parser -/

theorem dget_dset {d : Dict} {k k' : String} {v : PyVal} :
    dget (dset d k v) k' = if k = k' then some v else dget d k' := by
  induction d with
  | nil => simp [dset, dget]
  | cons hd tl ih =>
    obtain ⟨k0, v0⟩ := hd
    by_cases h0 : k0 = k
    · subst h0
      simp only [dset, if_pos rfl]
      by_cases h1 : k0 = k'
      · subst h1
        simp [dget]
      · simp [dget, h1]
    · simp only [dset, if_neg h0]
      by_cases h1 : k0 = k'
      · subst h1
        have hkk : ¬ k = k0 := fun h => h0 h.symm
        simp [dget, hkk]
      · simp [dget, h1, ih]

theorem dget_ddel {d : Dict} {k k' : String} :
    dget (ddel d k) k' = if k = k' then none else dget d k' := by
  induction d with
  | nil => simp [ddel, dget]
  | cons hd tl ih =>
    obtain ⟨k0, v0⟩ := hd
    by_cases h0 : k0 = k
    · subst h0
      rw [show ddel ((k0, v0) :: tl) k0 = ddel tl k0 from by simp [ddel], ih]
      by_cases h1 : k0 = k'
      · subst h1
        simp
      · simp [dget, h1]
    · rw [show ddel ((k0, v0) :: tl) k = (k0, v0) :: ddel tl k
        from by simp [ddel, h0]]
      by_cases h1 : k0 = k'
      · subst h1
        have hkk : ¬ k = k0 := fun h => h0 h.symm
        simp [dget, hkk]
      · simp [dget, h1, ih]

theorem dget_handleLine {kw : Dict} {k : String}
    (h1 : k ≠ "line") (h2 : k ≠ "linestyle") (h3 : k ≠ "marker") :
    dget (handleLine kw) k = dget kw k := by
  unfold handleLine
  split
  · rfl
  · rw [dget_ddel, if_neg (fun h => h1 h.symm)]
    split
    · rfl
    · rw [dget_dset, if_neg (fun h => h3 h.symm),
        dget_dset, if_neg (fun h => h2 h.symm)]

theorem dget_handleAlias {src dst : String} {kw : Dict} {k : String}
    (h : k ≠ dst) : dget (handleAlias src dst kw) k = dget kw k := by
  unfold handleAlias
  split
  · rfl
  · rw [dget_dset, if_neg (fun hh => h hh.symm)]

theorem dget_moveCustom_fst {acc : Dict × Dict} {key k : String}
    (h : k ≠ key) : dget (moveCustom acc key).1 k = dget acc.1 k := by
  unfold moveCustom
  split
  · rfl
  · rw [show (ddel acc.1 key, dset acc.2 key _).1 = ddel acc.1 key from rfl,
      dget_ddel, if_neg (fun hh => h hh.symm)]

theorem dget_moveCustom_snd {acc : Dict × Dict} {key k : String}
    (h : k ≠ key) : dget (moveCustom acc key).2 k = dget acc.2 k := by
  unfold moveCustom
  split
  · rfl
  · rw [show (ddel acc.1 key, dset acc.2 key _).2 = dset acc.2 key _ from rfl,
      dget_dset, if_neg (fun hh => h hh.symm)]

theorem dget_foldl_moveCustom {keys : List String} :
    ∀ (acc : Dict × Dict) (k : String), k ∉ keys →
      dget (keys.foldl moveCustom acc).1 k = dget acc.1 k ∧
      dget (keys.foldl moveCustom acc).2 k = dget acc.2 k := by
  induction keys with
  | nil => exact fun acc k _ => ⟨rfl, rfl⟩
  | cons hd tl ih =>
    intro acc k hk
    have hne : k ≠ hd := fun h => hk (h ▸ List.mem_cons_self _ _)
    have htl : k ∉ tl := fun h => hk (List.mem_cons_of_mem _ h)
    obtain ⟨ha, hb⟩ := ih (moveCustom acc hd) k htl
    exact ⟨ha.trans (dget_moveCustom_fst hne),
      hb.trans (dget_moveCustom_snd hne)⟩

theorem dget_parseRest_group (kw custom : Dict) :
    dget (parseRest kw custom).1 "group" = dget kw "group" ∧
    dget (parseRest kw custom).2 "group" = dget custom "group" := by
  unfold parseRest
  have hng : ("group" : String) ∉ custom_args := by
    simp [custom_args]
  obtain ⟨ha, hb⟩ := @dget_foldl_moveCustom custom_args _ "group" hng
  refine ⟨?_, hb⟩
  rw [ha, dget_handleAlias (by simp), dget_handleAlias (by simp),
    dget_handleLine (by simp) (by simp) (by simp)]

/-- Claim C7: `parse` raises a structured `InvalidParameterError` exactly
when the `group` option is present and invalid — longer than one character,
or equal to the reserved default group symbol `"_"` — and an invalid group
value never silently survives into the returned option records (a success
carries no `group` key in the matplotlib kwargs and only a valid `group`
value in the custom kwargs). -/
theorem claim_C7 (kwargs : Dict)
    (hstr : ∀ v, dget kwargs "group" = some v → ∃ s, v = PyVal.str s) :
    ((∃ msg, parse kwargs = Except.error (KwErr.invalidParameterError msg)) ↔
      (∃ s, dget kwargs "group" = some (PyVal.str s) ∧
        (1 < s.length ∨ s = DEFAULT_GROUP))) ∧
    (∀ mpl custom, parse kwargs = Except.ok (mpl, custom) →
      dget mpl "group" = none ∧
      ∀ s, dget custom "group" = some (PyVal.str s) →
        ¬(1 < s.length ∨ s = DEFAULT_GROUP)) := by
  rcases hg : dget kwargs "group" with _ | v
  · have hp : parse kwargs = Except.ok (parseRest kwargs [("frame", PyVal.int 0)]) := by
      unfold parse
      rw [hg]
    constructor
    · constructor
      · rintro ⟨msg, h⟩
        rw [hp] at h
        cases h
      · rintro ⟨s, hs, -⟩
        cases hs
    · intro mpl custom h
      rw [hp] at h
      have hpair := (Except.ok.injEq _ _).mp h
      have hmpl : mpl = (parseRest kwargs [("frame", PyVal.int 0)]).1 :=
        (congrArg Prod.fst hpair).symm
      have hcustom : custom = (parseRest kwargs [("frame", PyVal.int 0)]).2 :=
        (congrArg Prod.snd hpair).symm
      obtain ⟨ha, hb⟩ := dget_parseRest_group kwargs [("frame", PyVal.int 0)]
      constructor
      · rw [hmpl, ha, hg]
      · intro s hs
        rw [hcustom, hb] at hs
        cases hs
  · obtain ⟨s, rfl⟩ := hstr v hg
    by_cases hlen : 1 < s.length
    · have hp : parse kwargs = Except.error (KwErr.invalidParameterError
          "Group name cannot be longer than one unicode character.") := by
        unfold parse
        rw [hg]
        show (if 1 < s.length then _ else _) = _
        rw [if_pos hlen]
      refine ⟨⟨fun _ => ⟨s, rfl, Or.inl hlen⟩, fun _ => ⟨_, hp⟩⟩, ?_⟩
      intro mpl custom h
      rw [hp] at h
      cases h
    · by_cases hdef : s = DEFAULT_GROUP
      · have hp : parse kwargs =
            Except.error (KwErr.invalidParameterError "reserved group name") := by
          unfold parse
          rw [hg]
          show (if 1 < s.length then _ else _) = _
          rw [if_neg hlen, if_pos (by rw [hdef])]
        refine ⟨⟨fun _ => ⟨s, rfl, Or.inr hdef⟩, fun _ => ⟨_, hp⟩⟩, ?_⟩
        intro mpl custom h
        rw [hp] at h
        cases h
      · have hp : parse kwargs = Except.ok (parseRest (ddel kwargs "group")
            (dset [("frame", PyVal.int 0)] "group" (PyVal.str s))) := by
          unfold parse
          rw [hg]
          show (if 1 < s.length then _ else _) = _
          rw [if_neg hlen,
            if_neg (fun h => hdef ((PyVal.str.injEq _ _).mp h))]
        constructor
        · constructor
          · rintro ⟨msg, h⟩
            rw [hp] at h
            cases h
          · rintro ⟨s', hs', hbad⟩
            obtain rfl : s = s' :=
              (PyVal.str.injEq _ _).mp ((Option.some.injEq _ _).mp hs')
            rcases hbad with hbad | hbad
            · exact absurd hbad hlen
            · exact absurd hbad hdef
        · intro mpl custom h
          rw [hp] at h
          have hpair := (Except.ok.injEq _ _).mp h
          have hmpl : mpl = (parseRest (ddel kwargs "group")
              (dset [("frame", PyVal.int 0)] "group" (PyVal.str s))).1 :=
            (congrArg Prod.fst hpair).symm
          have hcustom : custom = (parseRest (ddel kwargs "group")
              (dset [("frame", PyVal.int 0)] "group" (PyVal.str s))).2 :=
            (congrArg Prod.snd hpair).symm
          obtain ⟨ha, hb⟩ := dget_parseRest_group (ddel kwargs "group")
            (dset [("frame", PyVal.int 0)] "group" (PyVal.str s))
          constructor
          · rw [hmpl, ha, dget_ddel, if_pos rfl]
          · intro s' hs'
            rw [hcustom, hb, dget_dset] at hs'
            simp only [if_pos rfl] at hs'
            obtain rfl : s = s' :=
              (PyVal.str.injEq _ _).mp ((Option.some.injEq _ _).mp hs')
            rintro (hbad | hbad)
            · exact hlen hbad
            · exact hdef hbad

/-- Claim C7, witnessed at `kwargs = {"group": "ab"}` (group longer than
one character), where `parse` raises. -/
theorem claim_C7_witness :
    ∃ msg, parse [("group", PyVal.str "ab")] =
      Except.error (KwErr.invalidParameterError msg) :=
  (claim_C7 [("group", PyVal.str "ab")]
    (by
      intro v h
      exact ⟨"ab", ((Option.some.injEq _ _).mp h).symm⟩)).1.mpr
    ⟨"ab", rfl, Or.inl (by decide)⟩

/-- Claim C8: evaluation of `parse` on `{"xrange": v}` and `{"xlim": v}`.
The alias only copies the value (`kwargs["xlim"] = kwargs["xrange"]`)
without deleting `"xrange"`, so the alias key survives in the
matplotlib-bound kwargs and the two calls do not produce the same pair. -/
theorem claim_C8_eval :
    parse [("xrange", PyVal.pair (PyVal.int 0) (PyVal.int 1))] =
      Except.ok ([("xrange", PyVal.pair (PyVal.int 0) (PyVal.int 1))],
        [("frame", PyVal.int 0),
         ("xlim", PyVal.pair (PyVal.int 0) (PyVal.int 1))]) ∧
    parse [("xlim", PyVal.pair (PyVal.int 0) (PyVal.int 1))] =
      Except.ok ([],
        [("frame", PyVal.int 0),
         ("xlim", PyVal.pair (PyVal.int 0) (PyVal.int 1))]) ∧
    parse [("xrange", PyVal.pair (PyVal.int 0) (PyVal.int 1))] ≠
      parse [("xlim", PyVal.pair (PyVal.int 0) (PyVal.int 1))] := by
  refine ⟨rfl, rfl, ?_⟩
  intro h
  have hpair := (Except.ok.injEq _ _).mp h
  have hfst := congrArg Prod.fst hpair
  exact List.noConfusion hfst

/-! ### Lemmas about the geometric command normalizer -/

theorem edit_plot_command_eq {ρ κ : Type} (p : PlotArgs ρ × κ)
    (ck : CustomKwargs) :
    edit_plot_command p ck = applyRotate (applyInvert (p.1, p.2, ck)) := by
  rcases hr : ck.rotate with _ | d <;> by_cases hb : ck.invert.getD false <;>
    simp [edit_plot_command, applyInvert, applyRotate, hb, hr]

/-- Claim C5: with `invert = true` and no rotation, `edit_plot_command`
returns the command with the x and y sequences exactly exchanged and
everything else (remaining positional arguments, matplotlib kwargs, custom
kwargs) unchanged. -/
theorem claim_C5 {ρ κ : Type} (args : PlotArgs ρ) (kw : κ) (ck : CustomKwargs)
    (hinv : ck.invert = some true) (hrot : ck.rotate = none) :
    edit_plot_command (args, kw) ck = (⟨args.Y, args.X, args.rest⟩, kw, ck) := by
  simp [edit_plot_command, hinv, hrot]

/-- Claim C5, witnessed at `X = [1, 2]`, `Y = [3, 4]`. -/
theorem claim_C5_witness :
    edit_plot_command ((⟨[1, 2], [3, 4], ()⟩ : PlotArgs Unit), (0 : Nat))
      ⟨some true, none⟩ =
    (⟨[3, 4], [1, 2], ()⟩, 0, ⟨some true, none⟩) :=
  claim_C5 _ _ _ rfl rfl

/-- Claim C6: with `rotate = d` degrees (and no inversion), the normalizer
converts the angle to radians `a = deg2rad d` and maps every zipped point
`(x, y)` to `(cos a * x + sin a * y, -sin a * x + cos a * y)`; with
`rotate = 0` the points are returned unchanged. -/
theorem claim_C6 {ρ κ : Type} (args : PlotArgs ρ) (kw : κ) (ck : CustomKwargs)
    (d : ℝ) (hrot : ck.rotate = some d) (hinv : ck.invert.getD false = false) :
    ((edit_plot_command (args, kw) ck).1.X = (args.X.zip args.Y).map
        (fun p => Real.cos (deg2rad d) * p.1 + Real.sin (deg2rad d) * p.2) ∧
      (edit_plot_command (args, kw) ck).1.Y = (args.X.zip args.Y).map
        (fun p => -Real.sin (deg2rad d) * p.1 + Real.cos (deg2rad d) * p.2) ∧
      (edit_plot_command (args, kw) ck).1.rest = args.rest) ∧
    (d = 0 → args.X.length = args.Y.length →
      (edit_plot_command (args, kw) ck).1 = args) := by
  have hmain : (edit_plot_command (args, kw) ck).1 =
      ⟨(args.X.zip args.Y).map
          (fun p => Real.cos (deg2rad d) * p.1 + Real.sin (deg2rad d) * p.2),
        (args.X.zip args.Y).map
          (fun p => -Real.sin (deg2rad d) * p.1 + Real.cos (deg2rad d) * p.2),
        args.rest⟩ := by
    simp [edit_plot_command, hrot, hinv]
  refine ⟨⟨by rw [hmain], by rw [hmain], by rw [hmain]⟩, ?_⟩
  intro hd hlen
  subst hd
  have hzero : deg2rad 0 = 0 := by
    unfold deg2rad
    ring
  obtain ⟨X, Y, rest⟩ := args
  rw [hmain]
  simp only [hzero, Real.cos_zero, Real.sin_zero, neg_zero, one_mul, zero_mul,
    add_zero, zero_add]
  have hX : (List.zip X Y).map (fun p => p.1) = X :=
    List.map_fst_zip X Y (le_of_eq hlen)
  have hY : (List.zip X Y).map (fun p => p.2) = Y :=
    List.map_snd_zip X Y (le_of_eq hlen.symm)
  simp only [PlotArgs.mk.injEq]
  exact ⟨hX, hY, trivial⟩

/-- Claim C6, witnessed at `rotate = 0` with `X = [1, 2]`, `Y = [3, 4]`. -/
theorem claim_C6_witness :
    (edit_plot_command ((⟨[1, 2], [3, 4], ()⟩ : PlotArgs Unit), ())
      ⟨none, some 0⟩).1 = ⟨[1, 2], [3, 4], ()⟩ :=
  (claim_C6 (⟨[1, 2], [3, 4], ()⟩ : PlotArgs Unit) () ⟨none, some 0⟩ 0
    rfl rfl).2 rfl rfl

/-- Claim C4: when both `invert = true` and `rotate` are given,
`edit_plot_command` applies the inversion first and the rotation second
(rotation operates on the already-inverted coordinates); and the two
transforms do not commute — inverting then rotating by 90 degrees gives a
different x sequence than rotating by 90 degrees then inverting, on the
point list `X = [1]`, `Y = [2]`. -/
theorem claim_C4 :
    (∀ {ρ κ : Type} (args : PlotArgs ρ) (kw : κ) (ck : CustomKwargs) (d : ℝ),
      ck.invert = some true → ck.rotate = some d →
      edit_plot_command (args, kw) ck = applyRotate (applyInvert (args, kw, ck))) ∧
    (edit_plot_command
        ((edit_plot_command ((⟨[1], [2], ()⟩ : PlotArgs Unit), ())
            ⟨some true, none⟩).1, ()) ⟨none, some 90⟩).1.X ≠
      (edit_plot_command
        ((edit_plot_command ((⟨[1], [2], ()⟩ : PlotArgs Unit), ())
            ⟨none, some 90⟩).1, ()) ⟨some true, none⟩).1.X := by
  constructor
  · intro ρ κ args kw ck d _ _
    exact edit_plot_command_eq (args, kw) ck
  · have hdeg : deg2rad 90 = Real.pi / 2 := by
      unfold deg2rad
      ring
    intro h
    simp only [edit_plot_command, applyInvert, applyRotate, hdeg,
      Real.cos_pi_div_two, Real.sin_pi_div_two, Option.getD] at h
    norm_num at h

/-- Claim C4, witnessed with both options set on `X = [1]`, `Y = [2]`. -/
theorem claim_C4_witness :
    edit_plot_command ((⟨[1], [2], ()⟩ : PlotArgs Unit), ())
      ⟨some true, some 90⟩ =
    applyRotate (applyInvert (⟨[1], [2], ()⟩, (), ⟨some true, some 90⟩)) :=
  claim_C4.1 _ _ _ 90 rfl rfl

/-! ### Lemmas about the adaptive sampler model -/

theorem sampleAux_spec (f : ℚ → ℚ) (tol : ℚ) :
    ∀ (depth : Nat) (lo hi : ℚ), lo < hi →
      ((sampleAux f tol depth lo hi).map Prod.fst).Chain' (· < ·) ∧
      (sampleAux f tol depth lo hi).head? = some (lo, f lo) ∧
      (sampleAux f tol depth lo hi).getLast? = some (hi, f hi) := by
  intro depth
  induction depth with
  | zero =>
    intro lo hi h
    have h1 : lo < (lo + hi) / 2 := by linarith
    have h2 : (lo + hi) / 2 < hi := by linarith
    refine ⟨?_, rfl, rfl⟩
    simp [sampleAux, List.chain'_cons, h1, h2]
  | succ n ih =>
    intro lo hi h
    have h1 : lo < (lo + hi) / 2 := by linarith
    have h2 : (lo + hi) / 2 < hi := by linarith
    by_cases hc : tol < |f ((lo + hi) / 2) - (f lo + f hi) / 2|
    · have heq : sampleAux f tol (n + 1) lo hi =
          sampleAux f tol n lo ((lo + hi) / 2) ++
            (sampleAux f tol n ((lo + hi) / 2) hi).drop 1 := by
        simp [sampleAux, hc]
      obtain ⟨hc1, hh1, hl1⟩ := ih lo ((lo + hi) / 2) h1
      obtain ⟨hc2, hh2, hl2⟩ := ih ((lo + hi) / 2) hi h2
      obtain ⟨ltl, hL⟩ : ∃ ltl, sampleAux f tol n lo ((lo + hi) / 2) =
          (lo, f lo) :: ltl := by
        rcases hr : sampleAux f tol n lo ((lo + hi) / 2) with _ | ⟨hd, tl⟩
        · rw [hr] at hh1
          cases hh1
        · rw [hr] at hh1
          exact ⟨tl, by rw [(Option.some.injEq _ _).mp hh1]⟩
      obtain ⟨rtl, hR⟩ : ∃ rtl, sampleAux f tol n ((lo + hi) / 2) hi =
          ((lo + hi) / 2, f ((lo + hi) / 2)) :: rtl := by
        rcases hr : sampleAux f tol n ((lo + hi) / 2) hi with _ | ⟨hd, tl⟩
        · rw [hr] at hh2
          cases hh2
        · rw [hr] at hh2
          exact ⟨tl, by rw [(Option.some.injEq _ _).mp hh2]⟩
      obtain ⟨r0, rtl', hR'⟩ : ∃ r0 rtl', rtl = r0 :: rtl' := by
        rcases hcase : rtl with _ | ⟨r0, rtl'⟩
        · rw [hR, hcase] at hl2
          have : hi = (lo + hi) / 2 :=
            congrArg Prod.fst ((Option.some.injEq _ _).mp hl2.symm)
          linarith
        · exact ⟨r0, rtl', rfl⟩
      subst hR'
      have hdrop : (sampleAux f tol n ((lo + hi) / 2) hi).drop 1 = r0 :: rtl' := by
        rw [hR]
        rfl
      refine ⟨?_, ?_, ?_⟩
      · -- strictly increasing abscissas across the concatenation
        rw [heq, hdrop, List.map_append]
        rw [List.chain'_append]
        have hcr : ((r0 :: rtl').map Prod.fst).Chain' (· < ·) ∧
            ∀ y ∈ ((r0 :: rtl').map Prod.fst).head?, (lo + hi) / 2 < y := by
          have := hc2
          rw [hR] at this
          simp only [List.map_cons] at this
          rw [List.chain'_cons'] at this
          exact ⟨this.2, this.1⟩
        refine ⟨hc1, hcr.1, ?_⟩
        intro x hx y hy
        have hxlast : x = (lo + hi) / 2 := by
          rw [List.getLast?_map, hl1] at hx
          simpa using hx.symm
        subst hxlast
        exact hcr.2 y hy
      · rw [heq, hL]
        rfl
      · rw [heq, hdrop, List.getLast?_append_cons]
        rw [hR, List.getLast?_cons_cons] at hl2
        exact hl2
    · have heq : sampleAux f tol (n + 1) lo hi =
          [(lo, f lo), ((lo + hi) / 2, f ((lo + hi) / 2)), (hi, f hi)] := by
        simp [sampleAux, hc]
      rw [heq]
      refine ⟨?_, rfl, rfl⟩
      simp [List.chain'_cons, h1, h2]

/-- Claim C9: for every function, every interval `(lo, hi)` with `lo < hi`
and every tolerance, the adaptive sampler returns a polyline whose x-values
are strictly increasing (hence duplicate-free), whose first x equals `lo`
and whose last x equals `hi`. -/
theorem claim_C9 (f : ℚ → ℚ) (lo hi tol : ℚ) (h : lo < hi) :
    ∃ pts, sample_function f (lo, hi) tol = Except.ok pts ∧
      (pts.map Prod.fst).Chain' (· < ·) ∧
      (pts.map Prod.fst).Nodup ∧
      (pts.map Prod.fst).head? = some lo ∧
      (pts.map Prod.fst).getLast? = some hi := by
  obtain ⟨hchain, hhead, hlast⟩ := sampleAux_spec f tol MAX_DEPTH lo hi h
  refine ⟨sampleAux f tol MAX_DEPTH lo hi, ?_, hchain, ?_, ?_, ?_⟩
  · unfold sample_function
    rw [if_neg (not_le.mpr h)]
  · have hpw := List.chain'_iff_pairwise.mp hchain
    exact hpw.imp ne_of_lt
  · rw [List.head?_map, hhead]
    rfl
  · rw [List.getLast?_map, hlast]
    rfl

/-- Claim C9, witnessed at `f x = x * x` on `(0, 1)` with tolerance 1. -/
theorem claim_C9_witness :
    ∃ pts, sample_function (fun x => x * x) (0, 1) 1 = Except.ok pts ∧
      (pts.map Prod.fst).Chain' (· < ·) ∧
      (pts.map Prod.fst).Nodup ∧
      (pts.map Prod.fst).head? = some 0 ∧
      (pts.map Prod.fst).getLast? = some 1 :=
  claim_C9 (fun x => x * x) 0 1 1 (by norm_num)

end Replot
